import Mathlib

/-!
Shallow embedding of the vault-code terminal bridge helpers.  The relevant
parts of src/scripts/terminal_pty.py, src/terminal_pty.py and
src/terminal_win.py are translated into Lean definitions (byte chunks are
lists of naturals, the stateful relay loops become functions over explicit
event traces), followed by theorems checking the specification claims
against them.
-/

/-- A chunk of bytes read from a stream; each element is a byte value
(0..255 in the real streams). -/
abbrev Chunk := List Nat

/-- Terminal size held by the PTY session: columns and rows. -/
structure Size where
  cols : Nat
  rows : Nat
deriving DecidableEq, Repr

/-- The directive introducer bytes ESC 0x5D R E S I Z E 0x3B, the Python
byte literal used by both POSIX variants. -/
def INTRO : Chunk := [27, 93, 82, 69, 83, 73, 90, 69, 59]

/-- First index at which pat occurs as a contiguous substring, modelling
Python bytes.index and the in operator. -/
def findSub (pat : Chunk) : Chunk → Option Nat
  | [] => none
  | b :: bs =>
    if pat.isPrefixOf (b :: bs) then some 0
    else (findSub pat bs).map (fun i => i + 1)

/-- First index of the BEL byte 0x07, modelling data.index of the BEL
byte literal. -/
def findBel : Chunk → Option Nat
  | [] => none
  | b :: bs => if b == 7 then some 0 else (findBel bs).map (fun i => i + 1)

theorem findSub_lt_length (pat : Chunk) :
    ∀ l i, findSub pat l = some i → i < l.length := by
  intro l
  induction l with
  | nil => intro i h; simp [findSub] at h
  | cons b bs ih =>
    intro i h
    simp only [findSub] at h
    split at h
    · simp only [Option.some.injEq] at h
      simp only [List.length_cons]
      omega
    · rw [Option.map_eq_some'] at h
      obtain ⟨j, hj, rfl⟩ := h
      have := ih j hj
      simp only [List.length_cons]
      omega

theorem findBel_lt_length :
    ∀ l i, findBel l = some i → i < l.length := by
  intro l
  induction l with
  | nil => intro i h; simp [findBel] at h
  | cons b bs ih =>
    intro i h
    simp only [findBel] at h
    split at h
    · simp only [Option.some.injEq] at h
      simp only [List.length_cons]
      omega
    · rw [Option.map_eq_some'] at h
      obtain ⟨j, hj, rfl⟩ := h
      have := ih j hj
      simp only [List.length_cons]
      omega

/-- ASCII whitespace stripped by Python int() before parsing. -/
def isSpaceB (b : Nat) : Bool :=
  b == 32 || b == 9 || b == 10 || b == 13 || b == 11 || b == 12

/-- ASCII decimal digit. -/
def isDigitB (b : Nat) : Bool := 48 ≤ b && b ≤ 57

/-- str.strip-like trim of surrounding ASCII whitespace, as Python int()
performs on its argument. -/
def trimSpaces (l : Chunk) : Chunk :=
  ((l.dropWhile isSpaceB).reverse.dropWhile isSpaceB).reverse

/-- Digit body of a Python int literal: decimal digits with single interior
grouping underscores (0x5F).  prevUnd records whether the previous
character was an underscore; the initial call passes true so that the body
must be nonempty and start with a digit. -/
def digitsBody : Chunk → Bool → Bool
  | [], prevUnd => !prevUnd
  | b :: rest, prevUnd =>
    if b == 95 then !prevUnd && digitsBody rest true
    else isDigitB b && digitsBody rest false

/-- Numeric value of a digit body, skipping grouping underscores. -/
def decValU (l : Chunk) : Nat :=
  l.foldl (fun acc b => if b == 95 then acc else acc * 10 + (b - 48)) 0

/-- Python int() applied to the decoded text of an ASCII byte sequence:
optional surrounding ASCII whitespace, an optional sign (0x2B or 0x2D),
then decimal digits with grouping underscores; none models the ValueError
raised otherwise.  (After UTF-8 decoding Python would additionally accept
non-ASCII decimal digits and whitespace; those code points are not
modelled, and bytes outside ASCII make the parse fail here as they do for
every ASCII-only payload.) -/
def pyIntB (l : Chunk) : Option Int :=
  match trimSpaces l with
  | [] => none
  | b :: body =>
    if b == 43 then
      if digitsBody body true then some (Int.ofNat (decValU body)) else none
    else if b == 45 then
      if digitsBody body true then some (-(Int.ofNat (decValU body))) else none
    else
      if digitsBody (b :: body) true then
        some (Int.ofNat (decValU (b :: body)))
      else none

/-- Python split on the semicolon byte 0x3B, as resize_data.split performs
on the decoded payload (a semicolon in UTF-8 text is always the single
byte 0x3B, so splitting the raw bytes is equivalent). -/
def splitSemi : Chunk → List Chunk
  | [] => [[]]
  | b :: rest =>
    if b == 59 then [] :: splitSemi rest
    else
      match splitSemi rest with
      | h :: t => (b :: h) :: t
      | [] => [[b]]

/-- set_size of the POSIX variants: struct.pack HHHH with (rows, cols, 0, 0)
followed by the TIOCSWINSZ ioctl.  struct.pack checks each H field in
order and raises struct.error — which the directive parsers do NOT catch
(they catch only ValueError and IndexError) — whenever a value lies
outside 0..65535; none models that uncaught exception.  On success the
ioctl applies the new size. -/
def set_size (cols rows : Int) : Option Size :=
  if rows < 0 ∨ 65535 < rows then none
  else if cols < 0 ∨ 65535 < cols then none
  else some ⟨cols.toNat, rows.toNat⟩

/-- How an input-chunk scan ended. -/
inductive ScanExit where
  /-- The scan finished normally (no introducer remains to process). -/
  | clean
  /-- A parse failure: the scripts variant breaks out of its while loop,
  the src/terminal_pty.py variant falls through its except-pass. -/
  | broke
  /-- An uncaught struct.error from set_size aborts the process. -/
  | crash
deriving DecidableEq, Repr

/-- Result of scanning one host-input chunk: the residual bytes forwarded
to the PTY (meaningless on crash, where the exception fires before any
write), the session size afterwards, the successfully applied sizes in
order, and how the scan ended. -/
structure ScanResult where
  residual : Chunk
  sz : Size
  applied : List Size
  exit : ScanExit
deriving DecidableEq, Repr

/-- Input-chunk scan of src/scripts/terminal_pty.py (main, lines 73-86):
while the introducer occurs anywhere in data, take its first index, find
the terminating BEL at or after it (ValueError breaks the loop when
absent), split the payload between them on semicolons, parse the two
fields with int() (ValueError breaks the loop), apply set_size (an
out-of-range value raises an uncaught struct.error) and cut the directive
out of the chunk, then rescan the mutated chunk. -/
def scanChunk (data : Chunk) (sz : Size) (applied : List Size) : ScanResult :=
  match h : findSub INTRO data with
  | none => ⟨data, sz, applied, .clean⟩
  | some start =>
    match h2 : findBel (data.drop start) with
    | none => ⟨data, sz, applied, .broke⟩
    | some j =>
      match splitSemi ((data.take (start + j)).drop (start + 9)) with
      | [cbs, rbs] =>
        match pyIntB cbs, pyIntB rbs with
        | some c, some r =>
          match set_size c r with
          | none => ⟨[], sz, applied, .crash⟩
          | some sz2 =>
            scanChunk (data.take start ++ data.drop (start + j + 1)) sz2
              (applied ++ [sz2])
        | _, _ => ⟨data, sz, applied, .broke⟩
      | _ => ⟨data, sz, applied, .broke⟩
termination_by data.length
decreasing_by
  have hs := findSub_lt_length INTRO data start h
  have hj := findBel_lt_length (data.drop start) j h2
  simp only [List.length_drop] at hj
  simp only [List.length_append, List.length_take, List.length_drop]
  omega

/-- Input-chunk handling of src/terminal_pty.py (main, lines 66-77): only a
directive at the very start of the chunk is recognised; the terminator is
searched from the chunk start; a parse failure leaves the chunk unchanged
(except clause passes); at most one directive is ever removed. -/
def ptyScan (data : Chunk) (sz : Size) : ScanResult :=
  if INTRO.isPrefixOf data then
    match findBel data with
    | none => ⟨data, sz, [], .broke⟩
    | some e =>
      match splitSemi ((data.take e).drop 9) with
      | [cbs, rbs] =>
        match pyIntB cbs, pyIntB rbs with
        | some c, some r =>
          match set_size c r with
          | none => ⟨[], sz, [], .crash⟩
          | some sz2 => ⟨data.drop (e + 1), sz2, [sz2], .clean⟩
        | _, _ => ⟨data, sz, [], .broke⟩
      | _ => ⟨data, sz, [], .broke⟩
  else ⟨data, sz, [], .clean⟩

/-- The resize directive ESC 0x5D RESIZE 0x3B cols 0x3B rows BEL built
from the raw digit bytes of its two fields. -/
def mkDirective (ds1 ds2 : Chunk) : Chunk :=
  INTRO ++ ds1 ++ [59] ++ ds2 ++ [7]

/-- What an os.read call observed in one loop iteration: the bytes it
returned (empty meaning EOF) or an OSError raised in that branch. -/
inductive ReadEv where
  | bytes (bs : Chunk)
  | err
deriving DecidableEq, Repr

/-- What the non-blocking waitpid at the bottom of each loop iteration
observed. -/
inductive WaitEv where
  /-- waitpid returned pid 0: the child is still running. -/
  | nochild
  /-- waitpid returned the child pid with this raw wait status. -/
  | exited (status : Nat)
  /-- ChildProcessError: the child was already reaped. -/
  | gone
deriving DecidableEq, Repr

/-- Environment observations of one iteration of a POSIX relay loop:
whether select raised, what each descriptor delivered when select reported
it ready (none when not ready; select lists the PTY descriptor before
stdin, and the for loop services them in that order), and what waitpid
then reported. -/
structure IterEv where
  selErr : Bool
  pty : Option ReadEv
  stdin : Option ReadEv
  wait : WaitEv
deriving DecidableEq, Repr

/-- Mutable state accumulated by a POSIX relay loop: the session size,
the bytes written to host stdout, the bytes written to the PTY (what the
shell receives) and the successfully applied resizes. -/
structure LoopSt where
  sz : Size
  toHost : Chunk
  toShell : Chunk
  applied : List Size
deriving DecidableEq, Repr

/-- How a POSIX relay loop run ended. -/
inductive LoopExit where
  /-- sys.exit with the translated child wait status. -/
  | exited (code : Int)
  /-- The while loop ended (break, or its condition became false); main
  returns and the interpreter exits with code 0. -/
  | ended
  /-- An uncaught exception (struct.error from set_size); the interpreter
  exits with code 1. -/
  | crashed
  /-- The supplied event trace ran out with the loop still going. -/
  | running
deriving DecidableEq, Repr

/-- os.waitstatus_to_exitcode: the exit code for a normally exited child
(low seven status bits zero), the negated signal number otherwise. -/
def waitstatus_to_exitcode (status : Nat) : Int :=
  if status % 128 = 0 then Int.ofNat ((status / 256) % 256)
  else -(Int.ofNat (status % 128))

/-- The waitpid check at the bottom of each POSIX loop iteration
(src/scripts/terminal_pty.py lines 91-97, src/terminal_pty.py lines
81-87).  running is the loop flag after this iteration body (always true
for the src/terminal_pty.py variant, whose loop condition is while True).
Returns the loop outcome if the loop ends here. -/
def waitStep (ev : WaitEv) (running : Bool) : Option LoopExit :=
  match ev with
  | .nochild => if running then none else some .ended
  | .exited status => some (.exited (waitstatus_to_exitcode status))
  | .gone => some .ended

/-- The stdin branch of one src/scripts/terminal_pty.py loop iteration
(lines 65-89) followed by the waitpid check: EOF or OSError clears
running (breaking out of the for loop); data is scanned by the directive
loop and the residual written to the PTY; a struct.error crash skips the
waitpid check (the exception propagates immediately). -/
def scriptsStdin (st : LoopSt) (ev : IterEv) : LoopSt × Option LoopExit :=
  match ev.stdin with
  | some (.bytes []) => (st, waitStep ev.wait false)
  | some .err => (st, waitStep ev.wait false)
  | some (.bytes bs) =>
    let r := scanChunk bs st.sz []
    match r.exit with
    | .crash =>
      ({ st with
          sz := r.sz
          applied := st.applied ++ r.applied }, some .crashed)
    | _ =>
      ({ st with
          sz := r.sz
          toShell := st.toShell ++ r.residual
          applied := st.applied ++ r.applied }, waitStep ev.wait true)
  | none => (st, waitStep ev.wait true)

/-- One iteration of the src/scripts/terminal_pty.py relay loop (lines
47-97): a select error breaks the while loop; the PTY branch runs first
(EOF or OSError clears running and breaks the for loop, skipping stdin;
data is copied to host stdout), then the stdin branch and the waitpid
check. -/
def scriptsIter (st : LoopSt) (ev : IterEv) : LoopSt × Option LoopExit :=
  if ev.selErr then (st, some .ended)
  else
    match ev.pty with
    | some (.bytes []) => (st, waitStep ev.wait false)
    | some .err => (st, waitStep ev.wait false)
    | some (.bytes bs) =>
      scriptsStdin { st with toHost := st.toHost ++ bs } ev
    | none => scriptsStdin st ev

/-- The src/scripts/terminal_pty.py relay loop over a finite trace of
iteration observations. -/
def scriptsLoop (st : LoopSt) : List IterEv → LoopSt × LoopExit
  | [] => (st, .running)
  | ev :: evs =>
    match scriptsIter st ev with
    | (st2, some x) => (st2, x)
    | (st2, none) => scriptsLoop st2 evs

/-- The stdin branch of one src/terminal_pty.py loop iteration (lines
62-79) followed by the waitpid check: EOF does nothing (the if data guard
fails and the loop keeps going); OSError is passed over; data is handled
by the start-of-chunk directive check and the residual written to the
PTY; a struct.error crash propagates immediately. -/
def ptyStdin (st : LoopSt) (ev : IterEv) : LoopSt × Option LoopExit :=
  match ev.stdin with
  | some (.bytes []) => (st, waitStep ev.wait true)
  | some .err => (st, waitStep ev.wait true)
  | some (.bytes bs) =>
    let r := ptyScan bs st.sz
    match r.exit with
    | .crash =>
      ({ st with
          sz := r.sz
          applied := st.applied ++ r.applied }, some .crashed)
    | _ =>
      ({ st with
          sz := r.sz
          toShell := st.toShell ++ r.residual
          applied := st.applied ++ r.applied }, waitStep ev.wait true)
  | none => (st, waitStep ev.wait true)

/-- One iteration of the src/terminal_pty.py relay loop (lines 46-87):
the loop condition is while True, so PTY EOF and read errors merely break
the for loop over ready descriptors (skipping stdin for that iteration)
and the relay keeps polling; only a select error, a waitpid result or a
crash ends the loop. -/
def ptyIter (st : LoopSt) (ev : IterEv) : LoopSt × Option LoopExit :=
  if ev.selErr then (st, some .ended)
  else
    match ev.pty with
    | some (.bytes []) => (st, waitStep ev.wait true)
    | some .err => (st, waitStep ev.wait true)
    | some (.bytes bs) =>
      ptyStdin { st with toHost := st.toHost ++ bs } ev
    | none => ptyStdin st ev

/-- The src/terminal_pty.py relay loop over a finite trace of iteration
observations. -/
def ptyLoop (st : LoopSt) : List IterEv → LoopSt × LoopExit
  | [] => (st, .running)
  | ev :: evs =>
    match ptyIter st ev with
    | (st2, some x) => (st2, x)
    | (st2, none) => ptyLoop st2 evs

/-- Process exit code produced by each way a POSIX relay loop can end:
sys.exit code on an observed child exit, 0 when main returns normally,
1 on an uncaught exception, none while the loop is still running. -/
def mainExitCode : LoopExit → Option Int
  | .exited c => some c
  | .ended => some 0
  | .crashed => some 1
  | .running => none

/-- The O_NONBLOCK file status flag (Linux value 0o4000). -/
def O_NONBLOCK : Nat := 2048

/-- Observable result of running a POSIX variant main: how the loop
ended, the stdin flag word while the loop ran, and the stdin flag word
after main finished. -/
structure MainResult where
  exit : LoopExit
  flagsDuring : Nat
  flagsFinal : Nat
deriving DecidableEq, Repr

/-- main of src/scripts/terminal_pty.py after the child is spawned (lines
37-99): save the stdin flags, set O_NONBLOCK, run the relay loop inside
try/finally, and restore the saved flags on every way out of the loop
(child exit via sys.exit, break, loop condition false, or an uncaught
exception). -/
def scriptsMain (f0 : Nat) (sz0 : Size) (evs : List IterEv) : MainResult :=
  let r := scriptsLoop ⟨sz0, [], [], []⟩ evs
  ⟨r.2, f0 ||| O_NONBLOCK, f0⟩

/-- main of src/terminal_pty.py after the child is spawned (lines 37-89),
with the same save/set/restore discipline around its relay loop. -/
def ptyMain (f0 : Nat) (sz0 : Size) (evs : List IterEv) : MainResult :=
  let r := ptyLoop ⟨sz0, [], [], []⟩ evs
  ⟨r.2, f0 ||| O_NONBLOCK, f0⟩

/-- A UTF-8 continuation byte 0x80..0xBF. -/
def isCont (b : Nat) : Bool := 128 ≤ b && b ≤ 191

/-- Code point of a two-byte UTF-8 sequence. -/
def cp2 (b c : Nat) : Nat := (b - 192) * 64 + (c - 128)

/-- Code point of a three-byte UTF-8 sequence. -/
def cp3 (b c d : Nat) : Nat :=
  (b - 224) * 4096 + (c - 128) * 64 + (d - 128)

/-- Code point of a four-byte UTF-8 sequence. -/
def cp4 (b c d e : Nat) : Nat :=
  (b - 240) * 262144 + (c - 128) * 4096 + (d - 128) * 64 + (e - 128)

/-- Valid second-byte range for a given lead byte, per the RFC 3629 table
that the CPython UTF-8 decoder enforces (rejecting overlong encodings,
surrogates and values above U+10FFFF). -/
def validSecond (b c : Nat) : Bool :=
  if b == 224 then 160 ≤ c && c ≤ 191
  else if b == 237 then 128 ≤ c && c ≤ 159
  else if b == 240 then 144 ≤ c && c ≤ 191
  else if b == 244 then 128 ≤ c && c ≤ 143
  else isCont c

/-- bytes.decode with errors set to replace, as the CPython UTF-8 decoder
behaves: each maximal prefix of a valid sequence that cannot be completed
is replaced by one U+FFFD (65533).  Returns the code points of the
resulting string. -/
def decodeReplace : Chunk → List Nat
  | [] => []
  | b :: rest =>
    if b ≤ 127 then b :: decodeReplace rest
    else if b < 194 then 65533 :: decodeReplace rest
    else if b ≤ 223 then
      match rest with
      | c :: rest2 =>
        if isCont c then cp2 b c :: decodeReplace rest2
        else 65533 :: decodeReplace (c :: rest2)
      | [] => [65533]
    else if b ≤ 239 then
      match rest with
      | c :: rest2 =>
        if validSecond b c then
          match rest2 with
          | d :: rest3 =>
            if isCont d then cp3 b c d :: decodeReplace rest3
            else 65533 :: decodeReplace (d :: rest3)
          | [] => [65533]
        else 65533 :: decodeReplace (c :: rest2)
      | [] => [65533]
    else if b ≤ 244 then
      match rest with
      | c :: rest2 =>
        if validSecond b c then
          match rest2 with
          | d :: rest3 =>
            if isCont d then
              match rest3 with
              | e :: rest4 =>
                if isCont e then cp4 b c d e :: decodeReplace rest4
                else 65533 :: decodeReplace (e :: rest4)
              | [] => [65533]
            else 65533 :: decodeReplace (d :: rest3)
          | [] => [65533]
        else 65533 :: decodeReplace (c :: rest2)
      | [] => [65533]
    else 65533 :: decodeReplace rest

/-- bytes.decode with strict errors (the default), as applied to the
resize payload in src/terminal_win.py line 74: the code points on
success, none for the UnicodeDecodeError that an invalid sequence
raises. -/
def decodeStrict : Chunk → Option (List Nat)
  | [] => some []
  | b :: rest =>
    if b ≤ 127 then (decodeStrict rest).map (fun t => b :: t)
    else if b < 194 then none
    else if b ≤ 223 then
      match rest with
      | c :: rest2 =>
        if isCont c then (decodeStrict rest2).map (fun t => cp2 b c :: t)
        else none
      | [] => none
    else if b ≤ 239 then
      match rest with
      | c :: d :: rest3 =>
        if validSecond b c && isCont d then
          (decodeStrict rest3).map (fun t => cp3 b c d :: t)
        else none
      | _ => none
    else if b ≤ 244 then
      match rest with
      | c :: d :: e :: rest4 =>
        if validSecond b c && isCont d && isCont e then
          (decodeStrict rest4).map (fun t => cp4 b c d e :: t)
        else none
      | _ => none
    else none

/-- str.strip of semicolons from both ends of the decoded payload, as
resize_data.decode().strip applies before splitting. -/
def stripSemis (l : List Nat) : List Nat :=
  ((l.dropWhile (fun c => c == 59)).reverse.dropWhile
    (fun c => c == 59)).reverse

/-- State accumulated by the Windows input loop: code points written to
the ConPTY via pty.write (pywinpty takes strings) and the argument pairs
of the pty.set_size calls made. -/
structure WinSt where
  toShell : List Nat
  resizes : List (Int × Int)
deriving DecidableEq, Repr

/-- How the Windows input loop ended. -/
inductive WinExit where
  /-- The while loop ended (EOF break, liveness condition false, or the
  outer exception break): control reaches the unconditional sys.exit(0)
  on line 89. -/
  | exit0
  /-- The read-until-BEL loop at line 68 spins forever: at stream EOF
  read(1) returns empty bytes and never the terminator, and the loop
  checks nothing else. -/
  | hang
deriving DecidableEq, Repr

/-- The bytes ]RESIZE compared against the seven-byte peek on line 65. -/
def PEEKPAT : Chunk := [93, 82, 69, 83, 73, 90, 69]

/-- Main input loop of src/terminal_win.py (main, lines 57-89) over the
whole host-input stream (the stdin bytes up to EOF).  alive bounds the
iterations for which running and pty.isalive() holds (the child's
remaining observed lifetime; note the child's exit code is never
consulted anywhere).  A one-byte read takes the next stream byte or
reports EOF; the seven-byte peek takes up to seven bytes; every byte
written to the PTY goes through str decoding with errors replace;
pty.set_size is treated as succeeding and is recorded. -/
def winLoop (alive : Nat) (stream : Chunk) (st : WinSt) : WinSt × WinExit :=
  match alive with
  | 0 => (st, .exit0)
  | alive2 + 1 =>
    match stream with
    | [] => (st, .exit0)
    | b :: rest =>
      if b == 27 then
        let peek := rest.take 7
        let rest2 := rest.drop 7
        if peek = PEEKPAT then
          match findBel rest2 with
          | none => (st, .hang)
          | some e =>
            let rest3 := rest2.drop (e + 1)
            match decodeStrict (rest2.take e) with
            | none => (st, .exit0)
            | some text =>
              match splitSemi (stripSemis text) with
              | [p1, p2] =>
                match pyIntB p1, pyIntB p2 with
                | some c, some r =>
                  winLoop alive2 rest3
                    { st with resizes := st.resizes ++ [(c, r)] }
                | _, _ => winLoop alive2 rest3 st
              | _ => winLoop alive2 rest3 st
        else
          winLoop alive2 rest2
            { st with toShell := st.toShell ++ decodeReplace (27 :: peek) }
      else
        winLoop alive2 rest
          { st with toShell := st.toShell ++ decodeReplace [b] }

/-- Exit code of the Windows helper for each way its input loop can end:
every loop end reaches the unconditional sys.exit(0); none when the
process never exits (the EOF spin). -/
def winExitCode : WinExit → Option Nat
  | .exit0 => some 0
  | .hang => none

/-- Whole-run exit code of the Windows helper: childCode is the exit code
of the spawned shell, which the source never consults (no
get_exitstatus call exists), alive the observed lifetime bound. -/
def winMain (childCode : Nat) (alive : Nat) (stream : Chunk) : Option Nat :=
  winExitCode (winLoop alive stream ⟨[], []⟩).2

/-- Case-insensitive byte comparison against an uppercase letter, as
re.IGNORECASE makes a letter byte in the pattern also match its lowercase
form. -/
def eqIC (b target : Nat) : Bool := b == target || b == target + 32

/-- Maximal run of ASCII digit bytes at the head, with the remainder. -/
def digitSpan : Chunk → Nat × Chunk
  | [] => (0, [])
  | b :: bs =>
    if isDigitB b then
      let s := digitSpan bs
      (s.1 + 1, s.2)
    else (0, b :: bs)

/-- Match of the digits BEL tail of RESIZE_RE after the second 0x3B: a
nonempty digit run directly followed by the BEL terminator; returns the
number of bytes consumed. -/
def matchSecond (rest3 : Chunk) : Option Nat :=
  if (digitSpan rest3).1 == 0 then none
  else
    match (digitSpan rest3).2 with
    | 7 :: _ => some ((digitSpan rest3).1 + 1)
    | _ => none

/-- Match of the digits 0x3B digits BEL tail of RESIZE_RE after the first
0x3B: a nonempty digit run, a semicolon, then the second field; returns
the number of bytes consumed. -/
def matchResizeTail (rest : Chunk) : Option Nat :=
  if (digitSpan rest).1 == 0 then none
  else
    match (digitSpan rest).2 with
    | 59 :: rest3 => (matchSecond rest3).map (fun k2 => (digitSpan rest).1 + 1 + k2)
    | _ => none

/-- Length of the match of RESIZE_RE (pattern ESC 0x5D RESIZE 0x3B digits
0x3B digits BEL compiled with re.IGNORECASE, so each letter byte also
matches its lowercase form) at the head of l, if any.  The greedy digit
runs are deterministic because a digit can be neither 0x3B nor BEL. -/
def matchResize (l : Chunk) : Option Nat :=
  match l with
  | 27 :: 93 :: b1 :: b2 :: b3 :: b4 :: b5 :: b6 :: 59 :: rest =>
    if eqIC b1 82 && eqIC b2 69 && eqIC b3 83 && eqIC b4 73 &&
        eqIC b5 90 && eqIC b6 69 then
      (matchResizeTail rest).map (fun kt => 9 + kt)
    else none
  | _ => none

/-- Length of the match of FOCUS_IN_RE (ESC 0x5B I, case sensitive, no
flags) at the head of l, if any. -/
def matchFocusIn (l : Chunk) : Option Nat :=
  match l with
  | 27 :: 91 :: 73 :: _ => some 3
  | _ => none

/-- Length of the match of FOCUS_OUT_RE (ESC 0x5B O, case sensitive, no
flags) at the head of l, if any. -/
def matchFocusOut (l : Chunk) : Option Nat :=
  match l with
  | 27 :: 91 :: 79 :: _ => some 3
  | _ => none

/-- re.sub with an empty replacement: scan left to right, remove each
match found and continue scanning right after it. -/
def subAll (m : Chunk → Option Nat) : Chunk → Chunk
  | [] => []
  | b :: bs =>
    match m (b :: bs) with
    | some (k + 1) => subAll m (bs.drop k)
    | _ => b :: subAll m bs
termination_by l => l.length
decreasing_by
  · simp only [List.length_drop, List.length_cons]
    omega
  · simp only [List.length_cons]
    omega

/-- Output filtering of read_output in src/terminal_win.py (lines 44-46):
RESIZE_RE.sub, then FOCUS_IN_RE.sub, then FOCUS_OUT_RE.sub, each removing
every non-overlapping match from the chunk before it is written to host
stdout. -/
def winOutputFilter (bs : Chunk) : Chunk :=
  subAll matchFocusOut (subAll matchFocusIn (subAll matchResize bs))

/-- out arises from l by deleting whole segments satisfying P, scanning
left to right, and changing nothing else. -/
inductive Strips (P : Chunk → Prop) : Chunk → Chunk → Prop where
  | nil : Strips P [] []
  | keep (b : Nat) (l out : Chunk) :
      Strips P l out → Strips P (b :: l) (b :: out)
  | strip (seg l out : Chunk) :
      P seg → Strips P l out → Strips P (seg ++ l) out

/-- seg is exactly a match of matcher m: in some continuation m accepts
starting at seg and stops exactly at its end. -/
def MatchSeg (m : Chunk → Option Nat) (seg : Chunk) : Prop :=
  ∃ t, m (seg ++ t) = some seg.length

theorem getLastD_default_irrel {α : Type} (l : List α) (hl : l ≠ [])
    (d1 d2 : α) : l.getLastD d1 = l.getLastD d2 := by
  cases l with
  | nil => exact absurd rfl hl
  | cons a t => rw [List.getLastD_cons, List.getLastD_cons]

theorem cut_sublist (l : Chunk) (s e : Nat) (hse : s ≤ e) :
    (l.take s ++ l.drop (e + 1)).Sublist l := by
  have h1 : l.drop (e + 1) = (l.drop s).drop (e + 1 - s) := by
    rw [List.drop_drop]
    congr 1
    omega
  have h2 : (l.drop (e + 1)).Sublist (l.drop s) := by
    rw [h1]
    exact List.drop_sublist _ _
  have h3 := List.Sublist.append_left h2 (l.take s)
  rw [List.take_append_drop] at h3
  exact h3

/-- Combined facts about the scripts-variant chunk scan: when it ends
cleanly the residual holds no introducer occurrence; the residual is
always a subsequence of the chunk obtained by deleting whole directive
spans; the applied list only grows; and the final size is the last
applied size, or the starting size if none was applied. -/
theorem scanChunk_facts (data : Chunk) (sz : Size) (acc : List Size) :
    ((scanChunk data sz acc).exit = .clean →
      findSub INTRO (scanChunk data sz acc).residual = none)
    ∧ ((scanChunk data sz acc).residual).Sublist data
    ∧ (∃ ext, (scanChunk data sz acc).applied = acc ++ ext)
    ∧ (acc.getLastD sz = sz →
      (scanChunk data sz acc).sz = (scanChunk data sz acc).applied.getLastD sz) := by
  induction data, sz, acc using scanChunk.induct with
  | case1 data sz acc h =>
    rw [scanChunk.eq_def, h]
    dsimp only
    exact ⟨fun _ => h, List.Sublist.refl data, ⟨[], (List.append_nil acc).symm⟩,
      fun hacc => hacc.symm⟩
  | case2 data sz acc start h h2 =>
    rw [scanChunk.eq_def, h]
    dsimp only
    rw [h2]
    dsimp only
    exact ⟨fun hc => absurd hc (by decide), List.Sublist.refl data,
      ⟨[], (List.append_nil acc).symm⟩, fun hacc => hacc.symm⟩
  | case3 data sz acc start h j h2 cbs rbs h3 c r h4 h5 h6 =>
    rw [scanChunk.eq_def, h]
    dsimp only
    rw [h2]
    dsimp only
    simp only [h3, h5, h4, h6]
    exact ⟨fun hc => absurd hc (by decide), List.nil_sublist data,
      ⟨[], (List.append_nil acc).symm⟩, fun hacc => hacc.symm⟩
  | case4 data sz acc start h j h2 cbs rbs h3 c r h4 h5 sz2 h6 ih =>
    rw [scanChunk.eq_def, h]
    dsimp only
    rw [h2]
    dsimp only
    simp only [h3, h5, h4, h6]
    obtain ⟨ih1, ih2, ih3, ih4⟩ := ih
    refine ⟨ih1, ih2.trans (cut_sublist data start (start + j) (by omega)), ?_, ?_⟩
    · obtain ⟨ext, hext⟩ := ih3
      exact ⟨sz2 :: ext, by rw [hext, List.append_assoc]; rfl⟩
    · intro hacc
      have hpre : (acc ++ [sz2]).getLastD sz2 = sz2 := by
        simp [List.getLastD_concat]
      have h1 := ih4 hpre
      obtain ⟨ext, hext⟩ := ih3
      have hne :
          (scanChunk (data.take start ++ data.drop (start + j + 1)) sz2
            (acc ++ [sz2])).applied ≠ [] := by
        rw [hext]
        simp
      rw [h1]
      exact getLastD_default_irrel _ hne sz2 sz
  | case5 data sz acc start h j h2 cbs rbs h3 hno =>
    rw [scanChunk.eq_def, h]
    dsimp only
    rw [h2]
    dsimp only
    rcases hx : pyIntB cbs with _ | c
    · simp only [h3, hx]
      exact ⟨fun hc => absurd hc (by decide), List.Sublist.refl data,
        ⟨[], (List.append_nil acc).symm⟩, fun hacc => hacc.symm⟩
    · rcases hy : pyIntB rbs with _ | r
      · simp only [h3, hx, hy]
        exact ⟨fun hc => absurd hc (by decide), List.Sublist.refl data,
          ⟨[], (List.append_nil acc).symm⟩, fun hacc => hacc.symm⟩
      · exact (hno c r hx hy).elim
  | case6 data sz acc start h j h2 hno =>
    rw [scanChunk.eq_def, h]
    dsimp only
    rw [h2]
    dsimp only
    rcases hs : splitSemi ((data.take (start + j)).drop (start + 9)) with
      _ | ⟨p, _ | ⟨q, _ | ⟨w, t⟩⟩⟩
    · simp only [hs]
      exact ⟨fun hc => absurd hc (by decide), List.Sublist.refl data,
        ⟨[], (List.append_nil acc).symm⟩, fun hacc => hacc.symm⟩
    · simp only [hs]
      exact ⟨fun hc => absurd hc (by decide), List.Sublist.refl data,
        ⟨[], (List.append_nil acc).symm⟩, fun hacc => hacc.symm⟩
    · exact (hno p q hs).elim
    · simp only [hs]
      exact ⟨fun hc => absurd hc (by decide), List.Sublist.refl data,
        ⟨[], (List.append_nil acc).symm⟩, fun hacc => hacc.symm⟩

theorem findSub_of_isPrefixOf (pat l : Chunk) (hne : l ≠ [])
    (hp : pat.isPrefixOf l = true) : findSub pat l = some 0 := by
  cases l with
  | nil => exact absurd rfl hne
  | cons b bs => simp [findSub, hp]

theorem findBel_append (xs ys : Chunk) (h : ∀ b ∈ xs, b ≠ 7) :
    findBel (xs ++ ys) = (findBel ys).map (fun i => i + xs.length) := by
  induction xs with
  | nil =>
    simp only [List.nil_append, List.length_nil]
    cases hf : findBel ys with
    | none => simp
    | some i => simp
  | cons x xs ih =>
    have hx : (x == 7) = false := by
      have := h x (by simp)
      simpa using this
    have hih := ih (fun b hb => h b (by simp [hb]))
    rw [List.cons_append, findBel, hx, hih]
    simp only [Bool.false_eq_true, if_false]
    cases hf : findBel ys with
    | none => simp
    | some i =>
      simp only [Option.map_some', List.length_cons, Option.some.injEq]
      omega

theorem findBel_cons7 (l : Chunk) : findBel (7 :: l) = some 0 := by
  simp [findBel]

theorem splitSemi_no59 (l : Chunk) (h : ∀ b ∈ l, (b == 59) = false) :
    splitSemi l = [l] := by
  induction l with
  | nil => rfl
  | cons b rest ih =>
    have hb := h b (by simp)
    have hih := ih (fun x hx => h x (by simp [hx]))
    simp [splitSemi, hb, hih]

theorem splitSemi_sep (xs ys : Chunk) (h : ∀ b ∈ xs, (b == 59) = false) :
    splitSemi (xs ++ 59 :: ys) = xs :: splitSemi ys := by
  induction xs with
  | nil => simp [splitSemi]
  | cons b rest ih =>
    have hb := h b (by simp)
    have hih := ih (fun x hx => h x (by simp [hx]))
    simp [splitSemi, hb, hih]

theorem digit_ne_semi {b : Nat} (hb : isDigitB b = true) : (b == 59) = false := by
  simp only [isDigitB, Bool.and_eq_true, decide_eq_true_eq] at hb
  simp only [beq_eq_false_iff_ne, ne_eq]
  omega

theorem digit_ne_7 {b : Nat} (hb : isDigitB b = true) : b ≠ 7 := by
  simp only [isDigitB, Bool.and_eq_true, decide_eq_true_eq] at hb
  omega

theorem digit_not_space {b : Nat} (hb : isDigitB b = true) :
    isSpaceB b = false := by
  simp only [isDigitB, Bool.and_eq_true, decide_eq_true_eq] at hb
  simp only [isSpaceB, Bool.or_eq_false_iff, beq_eq_false_iff_ne, ne_eq]
  omega

theorem dropWhile_space_digits (l : Chunk)
    (h : ∀ b ∈ l, isDigitB b = true) : l.dropWhile isSpaceB = l := by
  cases l with
  | nil => rfl
  | cons a t =>
    rw [List.dropWhile_cons, digit_not_space (h a (by simp))]
    simp

theorem trimSpaces_digits (l : Chunk) (h : ∀ b ∈ l, isDigitB b = true) :
    trimSpaces l = l := by
  unfold trimSpaces
  rw [dropWhile_space_digits l h,
    dropWhile_space_digits l.reverse (fun b hb => h b (List.mem_reverse.mp hb)),
    List.reverse_reverse]

theorem digitsBody_digits (l : Chunk) (hne : l ≠ [])
    (h : ∀ b ∈ l, isDigitB b = true) : ∀ prev, digitsBody l prev = true := by
  induction l with
  | nil => exact absurd rfl hne
  | cons b rest ih =>
    intro prev
    have hb := h b (by simp)
    have hb95 : (b == 95) = false := by
      simp only [isDigitB, Bool.and_eq_true, decide_eq_true_eq] at hb
      simp only [beq_eq_false_iff_ne, ne_eq]
      omega
    rw [digitsBody, hb95]
    simp only [Bool.false_eq_true, if_false, hb, Bool.true_and]
    cases rest with
    | nil => rfl
    | cons c t => exact ih (by simp) (fun x hx => h x (by simp [hx])) false

theorem pyIntB_digits (l : Chunk) (hne : l ≠ [])
    (h : ∀ b ∈ l, isDigitB b = true) :
    pyIntB l = some (Int.ofNat (decValU l)) := by
  cases l with
  | nil => exact absurd rfl hne
  | cons b body =>
    have hb := h b (by simp)
    have hbb : 48 ≤ b ∧ b ≤ 57 := by
      simpa [isDigitB] using hb
    have h43 : (b == 43) = false := by
      simp only [beq_eq_false_iff_ne, ne_eq]
      omega
    have h45 : (b == 45) = false := by
      simp only [beq_eq_false_iff_ne, ne_eq]
      omega
    have htrim := trimSpaces_digits (b :: body) h
    have hdb := digitsBody_digits (b :: body) (by simp) h true
    rw [pyIntB, htrim]
    simp [h43, h45, hdb]

theorem set_size_inrange (c r : Int) (hc0 : 0 ≤ c) (hc : c ≤ 65535)
    (hr0 : 0 ≤ r) (hr : r ≤ 65535) :
    set_size c r = some ⟨c.toNat, r.toNat⟩ := by
  rw [set_size, if_neg (by omega), if_neg (by omega)]

theorem mkDirective_shape (ds1 ds2 rest : Chunk) :
    mkDirective ds1 ds2 ++ rest = (INTRO ++ (ds1 ++ 59 :: ds2)) ++ 7 :: rest := by
  simp [mkDirective]

theorem directive_no7 (ds1 ds2 : Chunk)
    (hd1 : ∀ b ∈ ds1, isDigitB b = true) (hd2 : ∀ b ∈ ds2, isDigitB b = true) :
    ∀ b ∈ INTRO ++ (ds1 ++ 59 :: ds2), b ≠ 7 := by
  intro b hb
  simp only [INTRO, List.mem_append, List.mem_cons, List.not_mem_nil, or_false] at hb
  rcases hb with (rfl | rfl | rfl | rfl | rfl | rfl | rfl | rfl | rfl) | hb | rfl | hb
  · decide
  · decide
  · decide
  · decide
  · decide
  · decide
  · decide
  · decide
  · decide
  · exact digit_ne_7 (hd1 b hb)
  · decide
  · exact digit_ne_7 (hd2 b hb)

theorem directive_findBel (ds1 ds2 rest : Chunk)
    (hd1 : ∀ b ∈ ds1, isDigitB b = true) (hd2 : ∀ b ∈ ds2, isDigitB b = true) :
    findBel (mkDirective ds1 ds2 ++ rest) =
      some (ds1.length + ds2.length + 10) := by
  rw [mkDirective_shape, findBel_append _ _ (directive_no7 ds1 ds2 hd1 hd2),
    findBel_cons7]
  simp only [Option.map_some', Option.some.injEq, List.length_append,
    List.length_cons, INTRO, List.length_nil]
  omega

theorem directive_isPrefixOf (ds1 ds2 rest : Chunk) :
    INTRO.isPrefixOf (mkDirective ds1 ds2 ++ rest) = true := by
  rw [List.isPrefixOf_iff_prefix, mkDirective_shape, List.append_assoc]
  exact List.prefix_append _ _

theorem directive_payload (ds1 ds2 rest : Chunk) :
    List.drop (0 + 9)
      (List.take (0 + (ds1.length + ds2.length + 10))
        (mkDirective ds1 ds2 ++ rest)) = ds1 ++ 59 :: ds2 := by
  rw [Nat.zero_add, Nat.zero_add, mkDirective_shape]
  have hlen : (INTRO ++ (ds1 ++ 59 :: ds2)).length =
      ds1.length + ds2.length + 10 := by
    simp only [List.length_append, List.length_cons, INTRO, List.length_nil]
    omega
  rw [List.take_left' hlen]
  have h9 : INTRO.length = 9 := by decide
  rw [List.drop_left' h9]

theorem directive_remainder (ds1 ds2 rest : Chunk) :
    List.take 0 (mkDirective ds1 ds2 ++ rest) ++
      List.drop (0 + (ds1.length + ds2.length + 10) + 1)
        (mkDirective ds1 ds2 ++ rest) = rest := by
  rw [List.take_zero, List.nil_append, Nat.zero_add]
  have hshape2 : mkDirective ds1 ds2 ++ rest =
      ((INTRO ++ (ds1 ++ 59 :: ds2)) ++ [7]) ++ rest := by
    simp [mkDirective]
  rw [hshape2]
  have hlen : ((INTRO ++ (ds1 ++ 59 :: ds2)) ++ [7]).length =
      ds1.length + ds2.length + 10 + 1 := by
    simp only [List.length_append, List.length_cons, INTRO, List.length_nil]
    omega
  rw [List.drop_left' hlen]

theorem directive_split (ds1 ds2 : Chunk) (h1 : ds1 ≠ []) (h2 : ds2 ≠ [])
    (hd1 : ∀ b ∈ ds1, isDigitB b = true) (hd2 : ∀ b ∈ ds2, isDigitB b = true) :
    splitSemi (ds1 ++ 59 :: ds2) = [ds1, ds2] := by
  rw [splitSemi_sep _ _ (fun b hb => digit_ne_semi (hd1 b hb)),
    splitSemi_no59 _ (fun b hb => digit_ne_semi (hd2 b hb))]

theorem directive_set_size (v1 v2 : Nat) (hv1 : v1 ≤ 65535) (hv2 : v2 ≤ 65535) :
    set_size (Int.ofNat v1) (Int.ofNat v2) = some ⟨v1, v2⟩ := by
  rw [set_size_inrange (Int.ofNat v1) (Int.ofNat v2)
    (by rw [Int.ofNat_eq_natCast]; omega) (by rw [Int.ofNat_eq_natCast]; omega)
    (by rw [Int.ofNat_eq_natCast]; omega) (by rw [Int.ofNat_eq_natCast]; omega)]
  simp only [Int.ofNat_eq_natCast, Int.toNat_natCast]

/-- When a well-formed in-range directive sits at the start of the chunk,
the scripts-variant scan applies it, removes exactly its bytes and goes on
scanning the remainder of the chunk with the new size. -/
theorem scanChunk_directive_first (ds1 ds2 rest : Chunk) (sz : Size)
    (acc : List Size) (h1 : ds1 ≠ []) (h2 : ds2 ≠ [])
    (hd1 : ∀ b ∈ ds1, isDigitB b = true) (hd2 : ∀ b ∈ ds2, isDigitB b = true)
    (hv1 : decValU ds1 ≤ 65535) (hv2 : decValU ds2 ≤ 65535) :
    scanChunk (mkDirective ds1 ds2 ++ rest) sz acc =
      scanChunk rest ⟨decValU ds1, decValU ds2⟩
        (acc ++ [⟨decValU ds1, decValU ds2⟩]) := by
  have hne : mkDirective ds1 ds2 ++ rest ≠ [] := by simp [mkDirective]
  rw [scanChunk.eq_def,
    findSub_of_isPrefixOf INTRO _ hne (directive_isPrefixOf ds1 ds2 rest)]
  dsimp only
  rw [List.drop_zero, directive_findBel ds1 ds2 rest hd1 hd2]
  dsimp only
  rw [directive_payload ds1 ds2 rest, directive_split ds1 ds2 h1 h2 hd1 hd2]
  dsimp only
  rw [pyIntB_digits ds1 h1 hd1, pyIntB_digits ds2 h2 hd2]
  dsimp only
  rw [directive_set_size _ _ hv1 hv2]
  dsimp only
  rw [directive_remainder ds1 ds2 rest]

/-- When a well-formed in-range directive sits at the start of the chunk,
the src/terminal_pty.py handler applies it and forwards exactly the bytes
after it, untouched. -/
theorem ptyScan_directive_first (ds1 ds2 rest : Chunk) (sz : Size)
    (h1 : ds1 ≠ []) (h2 : ds2 ≠ [])
    (hd1 : ∀ b ∈ ds1, isDigitB b = true) (hd2 : ∀ b ∈ ds2, isDigitB b = true)
    (hv1 : decValU ds1 ≤ 65535) (hv2 : decValU ds2 ≤ 65535) :
    ptyScan (mkDirective ds1 ds2 ++ rest) sz =
      ⟨rest, ⟨decValU ds1, decValU ds2⟩, [⟨decValU ds1, decValU ds2⟩],
        .clean⟩ := by
  rw [ptyScan, directive_isPrefixOf ds1 ds2 rest, if_pos rfl,
    directive_findBel ds1 ds2 rest hd1 hd2]
  dsimp only
  have hpay : List.drop 9
      (List.take (ds1.length + ds2.length + 10) (mkDirective ds1 ds2 ++ rest)) =
      ds1 ++ 59 :: ds2 := by
    have := directive_payload ds1 ds2 rest
    rwa [Nat.zero_add, Nat.zero_add] at this
  rw [hpay, directive_split ds1 ds2 h1 h2 hd1 hd2]
  dsimp only
  rw [pyIntB_digits ds1 h1 hd1, pyIntB_digits ds2 h2 hd2]
  dsimp only
  rw [directive_set_size _ _ hv1 hv2]
  dsimp only
  have hrem : List.drop (ds1.length + ds2.length + 10 + 1)
      (mkDirective ds1 ds2 ++ rest) = rest := by
    have := directive_remainder ds1 ds2 rest
    rwa [List.take_zero, List.nil_append, Nat.zero_add] at this
  rw [hrem]

theorem ptyScan_no_intro (data : Chunk) (sz : Size)
    (h : INTRO.isPrefixOf data = false) :
    ptyScan data sz = ⟨data, sz, [], .clean⟩ := by
  rw [ptyScan, h]
  simp

theorem ptyScan_residual_sublist (data : Chunk) (sz : Size) :
    ((ptyScan data sz).residual).Sublist data := by
  rw [ptyScan]
  split
  · split
    · exact List.Sublist.refl data
    · split
      · split
        · split
          · exact List.nil_sublist data
          · exact List.drop_sublist _ _
        · exact List.Sublist.refl data
      · exact List.Sublist.refl data
  · exact List.Sublist.refl data

/-- C1 (amended).  Only the scripts variant (src/scripts/terminal_pty.py)
removes directives at arbitrary positions and repeatedly: whenever its
scan loop finishes without a parse failure, the bytes forwarded to the
shell contain no occurrence of the directive introducer (hence no byte
range of any well-formed directive survives); on a parse failure the loop
breaks and the remaining bytes, including any later well-formed directive,
are forwarded.  The src/terminal_pty.py variant removes at most one
directive and only when it sits at the very start of the chunk, in which
case exactly the directive bytes are removed. -/
theorem C1_directive_removal :
    (∀ data sz acc, (scanChunk data sz acc).exit = .clean →
      findSub INTRO (scanChunk data sz acc).residual = none)
    ∧ (∀ ds1 ds2 rest sz, ds1 ≠ [] → ds2 ≠ [] →
      (∀ b ∈ ds1, isDigitB b = true) → (∀ b ∈ ds2, isDigitB b = true) →
      decValU ds1 ≤ 65535 → decValU ds2 ≤ 65535 →
      ptyScan (mkDirective ds1 ds2 ++ rest) sz =
        ⟨rest, ⟨decValU ds1, decValU ds2⟩, [⟨decValU ds1, decValU ds2⟩],
          .clean⟩) :=
  ⟨fun data sz acc => (scanChunk_facts data sz acc).1,
    fun ds1 ds2 rest sz h1 h2 hd1 hd2 hv1 hv2 =>
      ptyScan_directive_first ds1 ds2 rest sz h1 h2 hd1 hd2 hv1 hv2⟩

/-- C1 witness: a chunk with one directive in the middle is scrubbed by
the scripts scan (clean exit, introducer-free residual), and the pty
variant strips a directive at the chunk start byte-exactly. -/
theorem C1_directive_removal_witness :
    findSub INTRO
      (scanChunk (97 :: (mkDirective [49, 48] [50, 48] ++ [98])) ⟨80, 24⟩
        []).residual = none
    ∧ ptyScan (mkDirective [49, 48] [50, 48] ++ [98]) ⟨80, 24⟩ =
      ⟨[98], ⟨10, 20⟩, [⟨10, 20⟩], .clean⟩ := by
  constructor
  · apply C1_directive_removal.1
    simp [scanChunk, findSub, findBel, splitSemi, pyIntB, trimSpaces,
      digitsBody, decValU, isDigitB, isSpaceB, set_size, INTRO, mkDirective]
  · exact C1_directive_removal.2 [49, 48] [50, 48] [98] ⟨80, 24⟩ (by decide)
      (by decide) (by decide) (by decide) (by decide) (by decide)

/-- C1 counterexample: in src/terminal_pty.py a well-formed directive that
does not start the chunk is forwarded to the shell in full (the residual
equals the whole chunk and still contains the directive introducer), so
the claim that every directive is removed wherever it appears is false for
that variant. -/
theorem C1_counterexample :
    ptyScan (97 :: mkDirective [49, 48] [50, 48]) ⟨80, 24⟩ =
      ⟨97 :: mkDirective [49, 48] [50, 48], ⟨80, 24⟩, [], .clean⟩
    ∧ findSub INTRO (97 :: mkDirective [49, 48] [50, 48]) = some 1 := by
  decide

/-- C3 (amended).  On host-input EOF with the child still running, the
scripts variant ends its relay loop cleanly (exit outcome ended, state
untouched, nothing killed), but src/terminal_pty.py does not terminate:
the EOF iteration is a complete no-op and the loop keeps polling. -/
theorem C3_stdin_eof :
    (∀ st evs, scriptsLoop st
      (⟨false, none, some (.bytes []), .nochild⟩ :: evs) = (st, .ended))
    ∧ (∀ st evs, ptyLoop st
      (⟨false, none, some (.bytes []), .nochild⟩ :: evs) = ptyLoop st evs) := by
  constructor
  · intro st evs
    simp [scriptsLoop, scriptsIter, scriptsStdin, waitStep]
  · intro st evs
    simp [ptyLoop, ptyIter, ptyStdin, waitStep]

/-- C3 counterexample: after a stdin-EOF iteration with the child alive,
the src/terminal_pty.py loop is still running (the trace ends with the
loop not terminated), refuting clean termination on EOF for that
variant. -/
theorem C3_counterexample :
    ptyLoop ⟨⟨80, 24⟩, [], [], []⟩
      [⟨false, none, some (.bytes []), .nochild⟩] =
      (⟨⟨80, 24⟩, [], [], []⟩, .running)
    ∧ LoopExit.running ≠ LoopExit.ended := by
  exact ⟨rfl, by decide⟩

/-- C6: the claim says out-of-range or non-numeric resize values are a
no-op and never fatal.  The code instead crashes: a directive carrying
70000 columns makes struct.pack raise struct.error, which the except
clause (ValueError, IndexError) does not catch, aborting the process
(exit crash) — though the size is indeed left unchanged; and a directive
carrying 0 columns is applied rather than ignored, changing the size to
0x40.  Non-numeric values alone are handled as the claim says. -/
theorem C6_out_of_range :
    scanChunk (mkDirective [55, 48, 48, 48, 48] [52, 48]) ⟨80, 24⟩ [] =
      ⟨[], ⟨80, 24⟩, [], .crash⟩
    ∧ ptyScan (mkDirective [48] [52, 48]) ⟨80, 24⟩ =
      ⟨[], ⟨0, 40⟩, [⟨0, 40⟩], .clean⟩
    ∧ scanChunk (mkDirective [97, 98, 99] [52, 48]) ⟨80, 24⟩ [] =
      ⟨mkDirective [97, 98, 99] [52, 48], ⟨80, 24⟩, [], .broke⟩ := by
  refine ⟨?_, by decide, ?_⟩
  · simp [scanChunk, findSub, findBel, splitSemi, pyIntB, trimSpaces,
      digitsBody, decValU, isDigitB, isSpaceB, set_size, INTRO, mkDirective]
  · simp [scanChunk, findSub, findBel, splitSemi, pyIntB, trimSpaces,
      digitsBody, decValU, isDigitB, isSpaceB, set_size, INTRO, mkDirective]

/-- C7: a truncated directive (introducer and peek matched, no terminator
before EOF) makes the Windows variant spin forever in its read-until-BEL
loop, so processing does hang there, against the claim; the POSIX
variants do recover locally: a truncated payload and a non-numeric
payload both leave the size unchanged and the chunk forwarded. -/
theorem C7_truncated_behaviour :
    winLoop 1 [27, 93, 82, 69, 83, 73, 90, 69, 59, 49, 50] ⟨[], []⟩ =
      (⟨[], []⟩, .hang)
    ∧ scanChunk [27, 93, 82, 69, 83, 73, 90, 69, 59, 49, 50] ⟨80, 24⟩ [] =
      ⟨[27, 93, 82, 69, 83, 73, 90, 69, 59, 49, 50], ⟨80, 24⟩, [], .broke⟩
    ∧ ptyScan (mkDirective [97, 98, 99] [52, 48]) ⟨80, 24⟩ =
      ⟨mkDirective [97, 98, 99] [52, 48], ⟨80, 24⟩, [], .broke⟩ := by
  refine ⟨by decide, ?_, by decide⟩
  simp [scanChunk, findSub, findBel, splitSemi, pyIntB, trimSpaces,
    digitsBody, decValU, isDigitB, isSpaceB, set_size, INTRO, mkDirective]

/-- C9: the session size after scanning any chunk equals the last
successfully applied resize (or the starting size when none was applied),
and a well-formed positive in-range directive issued as the whole input
makes the size exactly its (cols, rows), applied exactly once, with no
residual bytes. -/
theorem C9_size_invariant :
    (∀ data sz, (scanChunk data sz []).sz =
      (scanChunk data sz []).applied.getLastD sz)
    ∧ (∀ ds1 ds2 sz, ds1 ≠ [] → ds2 ≠ [] →
      (∀ b ∈ ds1, isDigitB b = true) → (∀ b ∈ ds2, isDigitB b = true) →
      1 ≤ decValU ds1 → decValU ds1 ≤ 65535 →
      1 ≤ decValU ds2 → decValU ds2 ≤ 65535 →
      scanChunk (mkDirective ds1 ds2) sz [] =
        ⟨[], ⟨decValU ds1, decValU ds2⟩, [⟨decValU ds1, decValU ds2⟩],
          .clean⟩) := by
  constructor
  · intro data sz
    exact (scanChunk_facts data sz []).2.2.2 rfl
  · intro ds1 ds2 sz h1 h2 hd1 hd2 _ hv1 _ hv2
    have h := scanChunk_directive_first ds1 ds2 [] sz [] h1 h2 hd1 hd2 hv1 hv2
    rw [List.append_nil] at h
    rw [h, scanChunk.eq_def]
    rfl

/-- C9 witness: a 100x40 directive as the sole input takes an 80x24
session to exactly 100x40 in one applied event. -/
theorem C9_size_invariant_witness :
    scanChunk (mkDirective [49, 48, 48] [52, 48]) ⟨80, 24⟩ [] =
      ⟨[], ⟨100, 40⟩, [⟨100, 40⟩], .clean⟩ :=
  C9_size_invariant.2 [49, 48, 48] [52, 48] ⟨80, 24⟩ (by decide) (by decide)
    (by decide) (by decide) (by decide) (by decide) (by decide) (by decide)

/-- C10: for every event trace — child exit observed, EOF, select error,
I/O error, child-status race, even a crash — both POSIX mains restore the
saved stdin flag word in their finally block, and the only change while
the loop runs is the O_NONBLOCK bit. -/
theorem C10_flags_restored :
    ∀ f0 sz evs,
      (scriptsMain f0 sz evs).flagsFinal = f0
      ∧ (scriptsMain f0 sz evs).flagsDuring = f0 ||| O_NONBLOCK
      ∧ (ptyMain f0 sz evs).flagsFinal = f0
      ∧ (ptyMain f0 sz evs).flagsDuring = f0 ||| O_NONBLOCK :=
  fun _ _ _ => ⟨rfl, rfl, rfl, rfl⟩

theorem waitstatus_normal_exit (N : Nat) (hN : N ≤ 255) :
    waitstatus_to_exitcode (256 * N) = Int.ofNat N := by
  rw [waitstatus_to_exitcode, if_pos (by omega)]
  have h : 256 * N / 256 % 256 = N := by omega
  rw [h]

/-- C2 (amended).  Both POSIX variants relay a normally exited child's
code N (0 <= N <= 255): the iteration whose waitpid reports wait status
256*N ends the loop with sys.exit(N).  The Windows variant never relays
the child's code: every exit it ever performs after spawning is
sys.exit(0), whatever the child exited with. -/
theorem C2_exit_codes :
    (∀ st evs N, N ≤ 255 →
      scriptsLoop st (⟨false, none, none, .exited (256 * N)⟩ :: evs) =
        (st, .exited (Int.ofNat N)))
    ∧ (∀ st evs N, N ≤ 255 →
      ptyLoop st (⟨false, none, none, .exited (256 * N)⟩ :: evs) =
        (st, .exited (Int.ofNat N)))
    ∧ (∀ childCode alive stream r,
      winMain childCode alive stream = some r → r = 0) := by
  refine ⟨?_, ?_, ?_⟩
  · intro st evs N hN
    simp [scriptsLoop, scriptsIter, scriptsStdin, waitStep,
      waitstatus_normal_exit N hN]
  · intro st evs N hN
    simp [ptyLoop, ptyIter, ptyStdin, waitStep,
      waitstatus_normal_exit N hN]
  · intro c a s r h
    rw [winMain] at h
    cases hx : (winLoop a s ⟨[], []⟩).2 with
    | exit0 =>
      rw [hx] at h
      simp [winExitCode] at h
      omega
    | hang =>
      rw [hx] at h
      simp [winExitCode] at h

/-- C2 witness: a child exit with status 256*7 is relayed as exit code 7
by both POSIX loops, and a Windows run whose loop ends exits 0. -/
theorem C2_exit_codes_witness :
    scriptsLoop ⟨⟨80, 24⟩, [], [], []⟩
      [⟨false, none, none, .exited (256 * 7)⟩] =
      (⟨⟨80, 24⟩, [], [], []⟩, .exited (Int.ofNat 7))
    ∧ ptyLoop ⟨⟨80, 24⟩, [], [], []⟩
      [⟨false, none, none, .exited (256 * 7)⟩] =
      (⟨⟨80, 24⟩, [], [], []⟩, .exited (Int.ofNat 7))
    ∧ (0 : Nat) = 0 :=
  ⟨C2_exit_codes.1 ⟨⟨80, 24⟩, [], [], []⟩ [] 7 (by decide),
    C2_exit_codes.2.1 ⟨⟨80, 24⟩, [], [], []⟩ [] 7 (by decide),
    C2_exit_codes.2.2 3 2 [65] 0 (by decide)⟩

/-- C2 counterexample: the shell under the Windows variant exits with
code 3 (the loop then observes it dead), yet the helper exits 0, so the
claim fails on src/terminal_win.py. -/
theorem C2_counterexample :
    winMain 3 0 [] = some 0 ∧ (0 : Nat) ≠ 3 := by
  exact ⟨rfl, by decide⟩

/-- C8 (amended).  When a relay loop ends for any reason other than an
observed child exit — select error, stdin EOF, PTY EOF, child-status
race, Windows stream EOF or liveness loss — the helper exits with code 0,
not with the claimed fallback 1: the POSIX mains simply return (the
interpreter exits 0) and the Windows main calls sys.exit(0).  Exit code 1
occurs only for startup failures or an uncaught exception (crash). -/
theorem C8_loop_end_exit_codes :
    (∀ st evs, scriptsLoop st (⟨true, none, none, .nochild⟩ :: evs) =
      (st, .ended))
    ∧ (∀ st evs, scriptsLoop st
      (⟨false, none, some (.bytes []), .nochild⟩ :: evs) = (st, .ended))
    ∧ (∀ st evs, scriptsLoop st
      (⟨false, some (.bytes []), none, .nochild⟩ :: evs) = (st, .ended))
    ∧ (∀ st evs, scriptsLoop st (⟨false, none, none, .gone⟩ :: evs) =
      (st, .ended))
    ∧ (∀ st evs, ptyLoop st (⟨true, none, none, .nochild⟩ :: evs) =
      (st, .ended))
    ∧ (∀ st evs, ptyLoop st (⟨false, none, none, .gone⟩ :: evs) =
      (st, .ended))
    ∧ mainExitCode .ended = some 0
    ∧ mainExitCode .crashed = some 1
    ∧ (∀ st alive, winLoop alive [] st = (st, .exit0))
    ∧ (∀ st stream, winLoop 0 stream st = (st, .exit0))
    ∧ winExitCode .exit0 = some 0 := by
  refine ⟨?_, ?_, ?_, ?_, ?_, ?_, rfl, rfl, ?_, ?_, rfl⟩
  · intro st evs
    simp [scriptsLoop, scriptsIter, scriptsStdin, waitStep]
  · intro st evs
    simp [scriptsLoop, scriptsIter, scriptsStdin, waitStep]
  · intro st evs
    simp [scriptsLoop, scriptsIter, scriptsStdin, waitStep]
  · intro st evs
    simp [scriptsLoop, scriptsIter, scriptsStdin, waitStep]
  · intro st evs
    simp [ptyLoop, ptyIter, ptyStdin, waitStep]
  · intro st evs
    simp [ptyLoop, ptyIter, ptyStdin, waitStep]
  · intro st alive
    cases alive with
    | zero => rfl
    | succ k => rfl
  · intro st stream
    rfl

/-- C8 counterexample: stdin EOF with the child still running ends the
scripts relay with process exit code 0, not the claimed fallback 1. -/
theorem C8_counterexample :
    mainExitCode (scriptsLoop ⟨⟨80, 24⟩, [], [], []⟩
      [⟨false, none, some (.bytes []), .nochild⟩]).2 = some 0
    ∧ (some (0 : Int) ≠ some (1 : Int)) := by
  exact ⟨rfl, by decide⟩

theorem decodeReplace_ascii (b : Nat) (hb : b < 128) :
    decodeReplace [b] = [b] := by
  rw [decodeReplace, if_pos (by omega)]
  rfl

theorem winLoop_ascii (stream : Chunk) :
    ∀ alive st, stream.length ≤ alive →
      (∀ b ∈ stream, b < 128 ∧ b ≠ 27) →
      winLoop alive stream st =
        ({ st with toShell := st.toShell ++ stream }, .exit0) := by
  induction stream with
  | nil =>
    intro alive st _ _
    cases alive with
    | zero => simp [winLoop]
    | succ k => simp [winLoop]
  | cons b rest ih =>
    intro alive st hlen hb
    cases alive with
    | zero => exact absurd hlen (by simp)
    | succ k =>
      have hbb := hb b (by simp)
      have hb27 : (b == 27) = false := by
        simp only [beq_eq_false_iff_ne, ne_eq]
        exact hbb.2
      rw [winLoop.eq_def]
      dsimp only
      rw [hb27]
      simp only [Bool.false_eq_true, if_false]
      rw [decodeReplace_ascii b hbb.1]
      rw [ih k _ (by simp at hlen; omega) (fun x hx => hb x (by simp [hx]))]
      simp [List.append_assoc]

/-- C4 (amended).  The POSIX variants forward non-directive bytes to the
PTY byte-for-byte: both scans only ever delete whole directive spans (the
residual is a sublist of the chunk), and a chunk containing no introducer
occurrence (scripts) or not starting with the introducer (the other
variant) is forwarded verbatim, arbitrary non-UTF-8 bytes included.  The
Windows variant is NOT byte transparent: every byte is re-decoded with
errors replace before pty.write, so only ASCII bytes outside ESC
sequences survive unchanged, as the third part states for ASCII
streams. -/
theorem C4_passthrough :
    (∀ data sz acc, ((scanChunk data sz acc).residual).Sublist data
      ∧ (findSub INTRO data = none →
        scanChunk data sz acc = ⟨data, sz, acc, .clean⟩))
    ∧ (∀ data sz, ((ptyScan data sz).residual).Sublist data
      ∧ (INTRO.isPrefixOf data = false →
        ptyScan data sz = ⟨data, sz, [], .clean⟩))
    ∧ (∀ stream st alive, stream.length ≤ alive →
      (∀ b ∈ stream, b < 128 ∧ b ≠ 27) →
      winLoop alive stream st =
        ({ st with toShell := st.toShell ++ stream }, .exit0)) := by
  refine ⟨?_, ?_, ?_⟩
  · intro data sz acc
    refine ⟨(scanChunk_facts data sz acc).2.1, ?_⟩
    intro h
    rw [scanChunk.eq_def, h]
  · intro data sz
    exact ⟨ptyScan_residual_sublist data sz, ptyScan_no_intro data sz⟩
  · intro stream st alive hlen hb
    exact winLoop_ascii stream alive st hlen hb

/-- C4 witness: the chunk hi (bytes 104 105) passes through all three
relays untouched. -/
theorem C4_passthrough_witness :
    scanChunk [104, 105] ⟨80, 24⟩ [] = ⟨[104, 105], ⟨80, 24⟩, [], .clean⟩
    ∧ ptyScan [104, 105] ⟨80, 24⟩ = ⟨[104, 105], ⟨80, 24⟩, [], .clean⟩
    ∧ winLoop 2 [104, 105] ⟨[], []⟩ = (⟨[104, 105], []⟩, .exit0) :=
  ⟨(C4_passthrough.1 [104, 105] ⟨80, 24⟩ []).2 (by decide),
    (C4_passthrough.2.1 [104, 105] ⟨80, 24⟩).2 (by decide),
    C4_passthrough.2.2 [104, 105] ⟨[], []⟩ 2 (by decide) (by decide)⟩

/-- C4 counterexample: the single non-UTF-8 byte 0x80 does not pass
through the Windows variant: pty.write receives the replacement character
U+FFFD (65533) instead, refuting byte-for-byte forwarding there. -/
theorem C4_counterexample :
    winLoop 1 [128] ⟨[], []⟩ = (⟨[65533], []⟩, .exit0)
    ∧ ([128] : List Nat) ≠ [65533] := by
  exact ⟨by decide, by decide⟩

theorem digitSpan_length (l : Chunk) :
    (digitSpan l).1 + (digitSpan l).2.length = l.length := by
  induction l with
  | nil => rfl
  | cons b bs ih =>
    rw [digitSpan]
    split
    · simp only [List.length_cons]
      omega
    · simp

theorem matchSecond_bounds (rest3 : Chunk) (k : Nat)
    (h : matchSecond rest3 = some k) : 1 ≤ k ∧ k ≤ rest3.length := by
  rw [matchSecond] at h
  split at h
  · exact absurd h (by simp)
  · split at h
    · rename_i tail heq
      simp only [Option.some.injEq] at h
      have hlen := digitSpan_length rest3
      rw [heq] at hlen
      simp only [List.length_cons] at hlen
      omega
    · exact absurd h (by simp)

theorem matchResizeTail_bounds (rest : Chunk) (k : Nat)
    (h : matchResizeTail rest = some k) : 1 ≤ k ∧ k ≤ rest.length := by
  rw [matchResizeTail] at h
  split at h
  · exact absurd h (by simp)
  · split at h
    · rename_i rest3 heq
      rw [Option.map_eq_some'] at h
      obtain ⟨k2, hk2, rfl⟩ := h
      have hb := matchSecond_bounds rest3 k2 hk2
      have hlen := digitSpan_length rest
      rw [heq] at hlen
      simp only [List.length_cons] at hlen
      omega
    · exact absurd h (by simp)

theorem matchResize_bounds (l : Chunk) (k : Nat)
    (h : matchResize l = some k) : 1 ≤ k ∧ k ≤ l.length := by
  rw [matchResize.eq_def] at h
  split at h
  · split at h
    · rw [Option.map_eq_some'] at h
      obtain ⟨kt, hkt, rfl⟩ := h
      rename_i rest b1 b2 b3 b4 b5 b6 hcond
      have hb := matchResizeTail_bounds _ _ hkt
      simp only [List.length_cons]
      omega
    · exact absurd h (by simp)
  · exact absurd h (by simp)

theorem matchFocusIn_bounds (l : Chunk) (k : Nat)
    (h : matchFocusIn l = some k) : 1 ≤ k ∧ k ≤ l.length := by
  rw [matchFocusIn.eq_def] at h
  split at h
  · simp only [Option.some.injEq] at h
    simp only [List.length_cons]
    omega
  · exact absurd h (by simp)

theorem matchFocusOut_bounds (l : Chunk) (k : Nat)
    (h : matchFocusOut l = some k) : 1 ≤ k ∧ k ≤ l.length := by
  rw [matchFocusOut.eq_def] at h
  split at h
  · simp only [Option.some.injEq] at h
    simp only [List.length_cons]
    omega
  · exact absurd h (by simp)

theorem matchResize_head (b : Nat) (bs : Chunk) (k : Nat)
    (h : matchResize (b :: bs) = some k) : b = 27 := by
  rw [matchResize.eq_def] at h
  split at h
  all_goals
    try (rename_i heq; have hh := congrArg (fun l => l.headD 0) heq
         simpa using hh)
  all_goals simp at h

theorem matchFocusIn_head (b : Nat) (bs : Chunk) (k : Nat)
    (h : matchFocusIn (b :: bs) = some k) : b = 27 := by
  rw [matchFocusIn.eq_def] at h
  split at h
  all_goals
    try (rename_i heq; have hh := congrArg (fun l => l.headD 0) heq
         simpa using hh)
  all_goals simp at h

theorem matchFocusOut_head (b : Nat) (bs : Chunk) (k : Nat)
    (h : matchFocusOut (b :: bs) = some k) : b = 27 := by
  rw [matchFocusOut.eq_def] at h
  split at h
  all_goals
    try (rename_i heq; have hh := congrArg (fun l => l.headD 0) heq
         simpa using hh)
  all_goals simp at h

theorem strips_subAll_aux (m : Chunk → Option Nat)
    (hm : ∀ l k, m l = some k → k ≤ l.length) :
    ∀ n bs, bs.length ≤ n → Strips (MatchSeg m) bs (subAll m bs) := by
  intro n
  induction n with
  | zero =>
    intro bs hb
    have hnil : bs = [] := List.length_eq_zero.mp (by omega)
    subst hnil
    have h0 : subAll m [] = [] := by rw [subAll.eq_def]
    rw [h0]
    exact .nil
  | succ n ih =>
    intro bs hb
    cases bs with
    | nil =>
      have h0 : subAll m [] = [] := by rw [subAll.eq_def]
      rw [h0]
      exact .nil
    | cons b t =>
      cases hmb : m (b :: t) with
      | none =>
        have h1 : subAll m (b :: t) = b :: subAll m t := by
          rw [subAll.eq_def]
          simp only [hmb]
        rw [h1]
        exact .keep b _ _ (ih t (by simp only [List.length_cons] at hb; omega))
      | some k =>
        cases k with
        | zero =>
          have h1 : subAll m (b :: t) = b :: subAll m t := by
            rw [subAll.eq_def]
            simp only [hmb]
          rw [h1]
          exact .keep b _ _
            (ih t (by simp only [List.length_cons] at hb; omega))
        | succ k2 =>
          have h1 : subAll m (b :: t) = subAll m (t.drop k2) := by
            rw [subAll.eq_def]
            simp only [hmb]
          rw [h1]
          have hkb := hm _ _ hmb
          simp only [List.length_cons] at hkb
          have hsplit : b :: t = (b :: t.take k2) ++ t.drop k2 := by
            rw [List.cons_append, List.take_append_drop]
          rw [hsplit]
          refine Strips.strip (b :: t.take k2) (t.drop k2) _ ?_ ?_
          · refine ⟨t.drop k2, ?_⟩
            have hlen : (b :: t.take k2).length = k2 + 1 := by
              simp only [List.length_cons, List.length_take]
              omega
            rw [hlen]
            have harg : (b :: t.take k2) ++ t.drop k2 = b :: t := by
              rw [List.cons_append, List.take_append_drop]
            rw [harg]
            exact hmb
          · refine ih (t.drop k2) ?_
            simp only [List.length_drop]
            simp only [List.length_cons] at hb
            omega

theorem strips_subAll (m : Chunk → Option Nat)
    (hm : ∀ l k, m l = some k → k ≤ l.length) (bs : Chunk) :
    Strips (MatchSeg m) bs (subAll m bs) :=
  strips_subAll_aux m hm bs.length bs le_rfl

theorem subAll_no27 (m : Chunk → Option Nat)
    (hm : ∀ b bs k, m (b :: bs) = some k → b = 27) :
    ∀ bs, (∀ b ∈ bs, b ≠ 27) → subAll m bs = bs := by
  intro bs
  induction bs with
  | nil =>
    intro _
    rw [subAll.eq_def]
  | cons b t ih =>
    intro h
    cases hmb : m (b :: t) with
    | none =>
      rw [subAll.eq_def]
      simp only [hmb]
      rw [ih (fun x hx => h x (by simp [hx]))]
    | some k => exact absurd (hm b t k hmb) (h b (by simp))

/-- C5 (amended).  The Windows output filter forwards a PTY chunk after
removing, left to right and in the source's order (RESIZE_RE, then
FOCUS_IN_RE, then FOCUS_OUT_RE), exactly whole non-overlapping matches of
those three patterns and nothing else — but because RESIZE_RE carries
re.IGNORECASE, the removed resize-shaped sequences include case variants
(for example a lowercase resize) that are not the directive echo.  Chunks
without any ESC byte pass through verbatim. -/
theorem C5_output_filter :
    (∀ bs, Strips (MatchSeg matchResize) bs (subAll matchResize bs))
    ∧ (∀ bs, Strips (MatchSeg matchFocusIn) (subAll matchResize bs)
      (subAll matchFocusIn (subAll matchResize bs)))
    ∧ (∀ bs, Strips (MatchSeg matchFocusOut)
      (subAll matchFocusIn (subAll matchResize bs)) (winOutputFilter bs))
    ∧ (∀ bs, (∀ b ∈ bs, b ≠ 27) → winOutputFilter bs = bs) := by
  refine ⟨?_, ?_, ?_, ?_⟩
  · intro bs
    exact strips_subAll matchResize
      (fun l k h => (matchResize_bounds l k h).2) bs
  · intro bs
    exact strips_subAll matchFocusIn
      (fun l k h => (matchFocusIn_bounds l k h).2) _
  · intro bs
    exact strips_subAll matchFocusOut
      (fun l k h => (matchFocusOut_bounds l k h).2) _
  · intro bs h
    rw [winOutputFilter, subAll_no27 matchResize matchResize_head bs h,
      subAll_no27 matchFocusIn matchFocusIn_head bs h,
      subAll_no27 matchFocusOut matchFocusOut_head bs h]

/-- C5 witness: an ESC-free chunk passes the Windows output filter
verbatim, and the filter deletes exactly one whole resize match from a
chunk that embeds one. -/
theorem C5_output_filter_witness :
    winOutputFilter [104, 105] = [104, 105] :=
  C5_output_filter.2.2.2 [104, 105] (by decide)

/-- C5 counterexample: a lowercase resize-shaped sequence is removed from
the output by RESIZE_RE's IGNORECASE matching even though it is not the
directive echo (the chunk contains no occurrence of the real, uppercase
introducer), refuting the claim that only the enumerated sequences are
stripped and nothing else. -/
theorem C5_counterexample :
    winOutputFilter [27, 93, 114, 101, 115, 105, 122, 101, 59, 49, 59, 50, 7]
      = []
    ∧ findSub INTRO
      [27, 93, 114, 101, 115, 105, 122, 101, 59, 49, 59, 50, 7] = none
    ∧ ([27, 93, 114, 101, 115, 105, 122, 101, 59, 49, 59, 50, 7] :
      List Nat) ≠ [] := by
  refine ⟨?_, by decide, by decide⟩
  simp [winOutputFilter, subAll, matchResize, matchResizeTail, matchSecond,
    matchFocusIn, matchFocusOut, eqIC, digitSpan, isDigitB]
